import Mathlib

/-!
Shallow embedding of the ESRS table-extraction pipeline (src/extract.py,
src/部分成功.py).  Texts are lists of characters; the Python regexes of the
pattern library are embedded as explicit matching functions; stateful parts
(page iteration with a try/except, Camelot table extraction) are embedded as
explicit data (a list of page-read outcomes, an oracle from page and flavor to
a Camelot result).
-/

namespace Esrs

abbrev Text := List Char

def chars (s : String) : Text := s.data

/-! ## Character classes (ASCII fragment of the Python regex classes) -/

def isSpaceC (c : Char) : Bool :=
  c = ' ' || c = '\t' || c = '\n' || c = '\r' || c = '\x0b' || c = '\x0c'

def isDigitC (c : Char) : Bool := '0' ≤ c && c ≤ '9'

def isUpperAZ (c : Char) : Bool := 'A' ≤ c && c ≤ 'Z'

def isLowerAZ (c : Char) : Bool := 'a' ≤ c && c ≤ 'z'

def isWordC (c : Char) : Bool := isUpperAZ c || isLowerAZ c || isDigitC c || c = '_'

def lowerChar (c : Char) : Char := if isUpperAZ c then Char.ofNat (c.toNat + 32) else c

def upperChar (c : Char) : Char := if isLowerAZ c then Char.ofNat (c.toNat - 32) else c

def lowerStr (s : Text) : Text := s.map lowerChar

def upperStr (s : Text) : Text := s.map upperChar

/-- Python str.strip(): drop whitespace at both ends. -/
def stripWs (s : Text) : Text := ((s.dropWhile isSpaceC).reverse.dropWhile isSpaceC).reverse

/-- Replace every maximal whitespace run by a single space
(the substitution in the cell normalization). -/
def collapseWsAux : Bool → Text → Text
  | _, [] => []
  | inRun, c :: t =>
    if isSpaceC c then
      if inRun then collapseWsAux true t else ' ' :: collapseWsAux true t
    else c :: collapseWsAux false t

/-- Cell normalization applied to every table cell: strip, then collapse
whitespace runs to single spaces. -/
def normalizeCell (s : Text) : Text := collapseWsAux false (stripWs s)

/-! ## Substring search (Python `in` and str.find) -/

def isPrefixTo : Text → Text → Bool
  | [], _ => true
  | _ :: _, [] => false
  | a :: x, b :: y => a == b && isPrefixTo x y

/-- Python `n in h` (substring containment). -/
def containsSub : Text → Text → Bool
  | n, [] => n.isEmpty
  | n, c :: t => isPrefixTo n (c :: t) || containsSub n t

/-- Python h.find(n): index of the first occurrence of n in h. -/
def findSub : Text → Text → Option Nat
  | n, [] => if n.isEmpty then some 0 else none
  | n, c :: t => if isPrefixTo n (c :: t) then some 0 else (findSub n t).map (· + 1)

/-! ## Regex matchers

Each matcher takes the character preceding the current position (for the `\b`
word boundaries) and the remaining input, and returns the matched text and the
rest of the input, following the Python regex backtracking semantics of the
concrete pattern. -/

def wordBefore : Option Char → Bool
  | none => false
  | some c => isWordC c

def wordAhead : Text → Bool
  | [] => false
  | c :: _ => isWordC c

/-- ESRS_CODE_RE = \b[A-Z]{2,4}-\d+\b at the current position.
The quantifier {2,4} can only succeed when the full run of uppercase letters
has length 2..4 (shorter attempts leave a letter, not a hyphen, next), and the
trailing boundary cannot be recovered by shrinking the digit run. -/
def matchEsrsCode (prev : Option Char) (s : Text) : Option (Text × Text) :=
  if wordBefore prev then none
  else
    let letters := s.takeWhile isUpperAZ
    if 2 ≤ letters.length ∧ letters.length ≤ 4 then
      match s.drop letters.length with
      | '-' :: r1 =>
        let ds := r1.takeWhile isDigitC
        if ds.isEmpty then none
        else
          let rest := r1.drop ds.length
          if wordAhead rest then none
          else some (letters ++ '-' :: ds, rest)
      | _ => none
    else none

/-- STANDALONE_NUMBER_RE = \b\d+\b at the current position. -/
def matchStandaloneNum (prev : Option Char) (s : Text) : Option (Text × Text) :=
  if wordBefore prev then none
  else
    let ds := s.takeWhile isDigitC
    if ds.isEmpty then none
    else
      let rest := s.drop ds.length
      if wordAhead rest then none else some (ds, rest)

/-- Case-insensitive literal; returns the actually consumed characters. -/
def matchLitCI : Text → Text → Option (Text × Text)
  | [], s => some ([], s)
  | _ :: _, [] => none
  | a :: x, c :: t =>
    if lowerChar c = lowerChar a then
      match matchLitCI x t with
      | some (m, r) => some (c :: m, r)
      | none => none
    else none

/-- Shared shape of PARAGRAPH_RE = paragraph\s+\d+ and PAGE_RE = page\s+\d+
(both IGNORECASE): a literal keyword, one or more whitespace, one or more
digits, all greedy. -/
def matchKwNum (kw : Text) (_prev : Option Char) (s : Text) : Option (Text × Text) :=
  match matchLitCI kw s with
  | none => none
  | some (m1, r1) =>
    let ws := r1.takeWhile isSpaceC
    if ws.isEmpty then none
    else
      let r2 := r1.drop ws.length
      let ds := r2.takeWhile isDigitC
      if ds.isEmpty then none
      else some (m1 ++ ws ++ ds, r2.drop ds.length)

def matchParagraphRef : Option Char → Text → Option (Text × Text) :=
  matchKwNum (chars ("paragraph"))

def matchPageRef : Option Char → Text → Option (Text × Text) :=
  matchKwNum (chars ("page"))

def isDigitDot (c : Char) : Bool := isDigitC c || c = '.'

/-- Greedy parse of (\.\d+)+ : the list of fully matched repetitions and the
rest of the input.  Every step consumes at least two characters, so fuel equal
to the input length is always sufficient. -/
def parseDotRepsAux : Nat → Text → List Text × Text
  | 0, s => ([], s)
  | fuel + 1, '.' :: t =>
    let ds := t.takeWhile isDigitC
    if ds.isEmpty then ([], '.' :: t)
    else
      let (reps, rest) := parseDotRepsAux fuel (t.drop ds.length)
      (('.' :: ds) :: reps, rest)
  | _ + 1, s => ([], s)

def parseDotReps (s : Text) : List Text × Text := parseDotRepsAux s.length s

/-- Second alternative of SECTION_RE: \b\d+(\.\d+)+\b .  Greedy repetitions;
if the trailing boundary fails, backtracking drops exactly one repetition
(after which a dot follows, so the boundary holds); shrinking a digit run can
never restore the boundary. -/
def matchSectionAlt2 (prev : Option Char) (s : Text) : Option (Text × Text) :=
  if wordBefore prev then none
  else
    let d0 := s.takeWhile isDigitC
    if d0.isEmpty then none
    else
      let r1 := s.drop d0.length
      let (reps, rest) := parseDotReps r1
      if reps.isEmpty then none
      else if wordAhead rest then
        if 2 ≤ reps.length then
          some (d0 ++ (reps.dropLast).flatten, (reps.getLast?.getD []) ++ rest)
        else none
      else some (d0 ++ reps.flatten, rest)

/-- SECTION_RE = (Section\s+[\d\.]+|\b\d+(\.\d+)+\b) IGNORECASE.  The first
alternative is tried first at each position. -/
def matchSection (prev : Option Char) (s : Text) : Option (Text × Text) :=
  match matchLitCI (chars ("Section")) s with
  | some (m1, r1) =>
    let ws := r1.takeWhile isSpaceC
    if ws.isEmpty then matchSectionAlt2 prev s
    else
      let r2 := r1.drop ws.length
      let run := r2.takeWhile isDigitDot
      if run.isEmpty then matchSectionAlt2 prev s
      else some (m1 ++ ws ++ run, r2.drop run.length)
  | none => matchSectionAlt2 prev s

/-! ## Scanning (re.search and re.findall) -/

/-- re.search: first match while scanning left to right. -/
def searchFirst (m : Option Char → Text → Option (Text × Text)) : Option Char → Text → Option Text
  | _, [] => none
  | prev, c :: t =>
    match m prev (c :: t) with
    | some (mt, _) => some mt
    | none => searchFirst m (some c) t

/-- re.findall: non-overlapping matches, scanning resumes after each match.
All embedded matchers return non-empty matches, so fuel = input length is
always sufficient. -/
def scanAllFuel (m : Option Char → Text → Option (Text × Text)) : Nat → Option Char → Text → List Text
  | 0, _, _ => []
  | _ + 1, _, [] => []
  | fuel + 1, prev, c :: t =>
    match m prev (c :: t) with
    | some (mt, rest) => mt :: scanAllFuel m fuel mt.getLast? rest
    | none => scanAllFuel m fuel (some c) t

def findAllMatches (m : Option Char → Text → Option (Text × Text)) (s : Text) : List Text :=
  scanAllFuel m s.length none s

def esrsCodeSearch (s : Text) : Option Text := searchFirst matchEsrsCode none s

def sectionFindAll (s : Text) : List Text := findAllMatches matchSection s

def paragraphFindAll (s : Text) : List Text := findAllMatches matchParagraphRef s

def pageFindAll (s : Text) : List Text := findAllMatches matchPageRef s

def numberFindAll (s : Text) : List Text := findAllMatches matchStandaloneNum s

def numberSearch (s : Text) : Option Text := searchFirst matchStandaloneNum none s

/-! ## Reference categorization (step 2 of process_table_for_esrs) -/

structure RefSets where
  sections : List Text
  pages : List Text
  paragraphs : List Text
  others : List Text
  rawPageMatches : List Text
deriving DecidableEq

/-- The append used for section and paragraph references: strip, keep only
non-empty values not already present. -/
def pushStripUnique (acc : List Text) (x : Text) : List Text :=
  let y := stripWs x
  if y.isEmpty then acc else if y ∈ acc then acc else acc ++ [y]

/-- The standalone-number exclusion test: the number (as a string) occurs
inside one of the captured section, paragraph, or raw "page N" strings. -/
def partOfOther (sections paragraphs rawPages : List Text) (n : Text) : Bool :=
  sections.any (fun r => containsSub n r) ||
  paragraphs.any (fun r => containsSub n r) ||
  rawPages.any (fun r => containsSub n r)

def othersStep (sections paragraphs rawPages : List Text) (acc : List Text) (n : Text) : List Text :=
  if partOfOther sections paragraphs rawPages n then acc
  else if n ∈ acc then acc else acc ++ [n]

def sectionRefsOf (s : Text) : List Text := (sectionFindAll s).foldl pushStripUnique []

def paragraphRefsOf (s : Text) : List Text := (paragraphFindAll s).foldl pushStripUnique []

/-- The page references keep only the numeric part of each raw "page N"
match. -/
def pageRefsOf (s : Text) : List Text :=
  (pageFindAll s).foldl (fun acc p =>
    match numberSearch (stripWs p) with
    | some numv => if numv.isEmpty then acc else if numv ∈ acc then acc else acc ++ [numv]
    | none => acc) []

def otherRefsOf (s : Text) : List Text :=
  (numberFindAll s).foldl (othersStep (sectionRefsOf s) (paragraphRefsOf s) (pageFindAll s)) []

def classifyRefs (s : Text) : RefSets :=
  ⟨sectionRefsOf s, pageRefsOf s, paragraphRefsOf s, otherRefsOf s, pageFindAll s⟩

/-! ## Disclosure-text matching (step 1 of process_table_for_esrs) -/

def assocLookup : List (Text × Text) → Text → Option Text
  | [], _ => none
  | (k, v) :: t, x => if k = x then some v else assocLookup t x

/-- Stable insertion for sorting by length, descending (Python
sorted(keys, key=len, reverse=True)).  An element is placed before the first
element whose length is not larger, so earlier elements precede later
equal-length ones. -/
def insertDesc (x : Text) : List Text → List Text
  | [] => [x]
  | y :: t => if x.length < y.length then y :: insertDesc x t else x :: y :: t

def sortKeysByLenDesc : List Text → List Text
  | [] => []
  | x :: t => insertDesc x (sortKeysByLenDesc t)

/-- The candidacy test of the scanning loop: the key maps to the found code
and occurs case-insensitively in the row text. -/
def candCond (mapping : List (Text × Text)) (code rowText dr : Text) : Prop :=
  assocLookup mapping dr = some code ∧ containsSub (lowerStr dr) (lowerStr rowText) = true

instance candCondDec (mapping : List (Text × Text)) (code rowText dr : Text) :
    Decidable (candCond mapping code rowText dr) := by
  unfold candCond
  infer_instance

/-- One iteration of the best-match loop.  The update condition mirrors the
source: best is None, or the new offset is strictly smaller, or the new text
is strictly longer. -/
def bestStep (mapping : List (Text × Text)) (code rowText : Text)
    (best : Option (Text × Nat)) (dr : Text) : Option (Text × Nat) :=
  if candCond mapping code rowText dr then
    match findSub (lowerStr dr) (lowerStr rowText) with
    | none => best
    | some idx =>
      match best with
      | none => some (dr, idx)
      | some (bt, bi) => if idx < bi ∨ bt.length < dr.length then some (dr, idx) else best
  else best

/-- The best-match scan over the mapping keys sorted by length descending. -/
def findBestMatch (mapping : List (Text × Text)) (code rowText : Text) : Option (Text × Nat) :=
  (sortKeysByLenDesc (mapping.map Prod.fst)).foldl (bestStep mapping code rowText) none

/-! ## Row classification -/

structure ExtractedRow where
  code : Text
  matchedDisclosureText : Text
  sectionRefs : List Text
  pageRefs : List Text
  paragraphRefs : List Text
  otherRefs : List Text
  sourcePage : Nat
  sourceRowText : Text
deriving DecidableEq

def rowTextOf (row : List Text) : Text :=
  List.intercalate (chars (" ")) (row.map normalizeCell)

/-- Disclosure matching runs only when the loaded disclosure-text list is
non-empty and a code was found in the row. -/
def rowBest (drTexts : List Text) (mapping : List (Text × Text)) (rowText : Text) :
    Option (Text × Nat) :=
  if drTexts.isEmpty then none
  else
    match esrsCodeSearch rowText with
    | some code => findBestMatch mapping code rowText
    | none => none

/-- The matched disclosure text; the source tests the selected string for
truthiness, so an empty best match counts as no match. -/
def rowMatchedText (drTexts : List Text) (mapping : List (Text × Text)) (rowText : Text) :
    Option Text :=
  match rowBest drTexts mapping rowText with
  | some (bt, _) => if bt.isEmpty then none else some bt
  | none => none

/-- The reference search text: everything after the matched disclosure text,
or the whole row text when no (non-empty) match was selected. -/
def rowSearchText (drTexts : List Text) (mapping : List (Text × Text)) (rowText : Text) : Text :=
  match rowBest drTexts mapping rowText with
  | some (bt, bi) => if bt.isEmpty then rowText else rowText.drop (bi + bt.length)
  | none => rowText

/-- Classification of one table row; returns the extracted entry when the
relevance filter keeps the row. -/
def processRow (drTexts : List Text) (mapping : List (Text × Text)) (page : Nat)
    (row : List Text) : Option ExtractedRow :=
  let rowText := rowTextOf row
  match esrsCodeSearch rowText with
  | none => none
  | some code =>
    let matched := rowMatchedText drTexts mapping rowText
    let refs := classifyRefs (rowSearchText drTexts mapping rowText)
    if matched.isSome || !refs.sections.isEmpty || !refs.pages.isEmpty || !refs.paragraphs.isEmpty then
      some { code := code
             matchedDisclosureText := matched.getD []
             sectionRefs := refs.sections
             pageRefs := refs.pages
             paragraphRefs := refs.paragraphs
             otherRefs := refs.others
             sourcePage := page
             sourceRowText := rowText }
    else none

def process_table_for_esrs (drTexts : List Text) (mapping : List (Text × Text))
    (table : List (List Text)) (page : Nat) : List ExtractedRow :=
  table.filterMap (processRow drTexts mapping page)

/-! ## Page selection (find_esrs_pages) -/

/-- Outcome of page.extract_text() on one page: a string (None is folded to
the empty string by the source), or an exception. -/
inductive PageRead where
  | ok (t : Text)
  | err
deriving DecidableEq

def esrsKw : Text := chars ("ESRS")

def pageSelected (drTexts : List Text) (t : Text) : Prop :=
  containsSub esrsKw (upperStr t) = true ∨
  ∃ dr ∈ drTexts, containsSub (lowerStr dr) (lowerStr t) = true

instance pageSelectedDec (drTexts : List Text) (t : Text) :
    Decidable (pageSelected drTexts t) := by
  unfold pageSelected
  infer_instance

/-- Page loop of find_esrs_pages.  The try/except in the source wraps the
whole loop, so an extraction failure on any page returns the empty list for
the whole document. -/
def find_esrs_pages_aux (drTexts : List Text) : Nat → List Nat → List PageRead → List Nat
  | _, acc, [] => acc
  | _, _, PageRead.err :: _ => []
  | i, acc, PageRead.ok t :: rest =>
    let acc1 := if containsSub esrsKw (upperStr t) = true then
                  (if i ∈ acc then acc else acc ++ [i]) else acc
    let acc2 := if ∃ dr ∈ drTexts, containsSub (lowerStr dr) (lowerStr t) = true then
                  (if i ∈ acc1 then acc1 else acc1 ++ [i]) else acc1
    find_esrs_pages_aux drTexts (i + 1) acc2 rest

def find_esrs_pages (drTexts : List Text) (doc : List PageRead) : List Nat :=
  find_esrs_pages_aux drTexts 1 [] doc

/-! ## Table extraction (Camelot strategies) -/

abbrev TableGrid := List (List Text)

inductive Flavor where
  | lattice
  | stream
deriving DecidableEq

/-- Result of one camelot.read_pdf call: a table list, or an exception. -/
inductive CamelotResult where
  | tables (ts : List TableGrid)
  | error
deriving DecidableEq

/-- extract_tables_on_page: an exception is caught and treated as an empty
table list. -/
def extract_tables_on_page (cam : Nat → Flavor → CamelotResult) (page : Nat)
    (flavor : Flavor) : List TableGrid :=
  match cam page flavor with
  | .tables ts => ts
  | .error => []

/-- Per-page table collection: lattice first, then stream; the source guards
each extend with a non-emptiness test. -/
def tablesForPage (cam : Nat → Flavor → CamelotResult) (page : Nat) : List TableGrid :=
  let tl := extract_tables_on_page cam page Flavor.lattice
  let ts := extract_tables_on_page cam page Flavor.stream
  (if tl.isEmpty then [] else tl) ++ (if ts.isEmpty then [] else ts)

/-- extract_esrs_tables: select pages, collect tables per page in fixed
strategy order, classify every row, return None when nothing was selected or
extracted. -/
def extract_esrs_tables (drTexts : List Text) (mapping : List (Text × Text))
    (doc : List PageRead) (cam : Nat → Flavor → CamelotResult) : Option (List ExtractedRow) :=
  let pages := find_esrs_pages drTexts doc
  if pages.isEmpty then none
  else
    let allRows := ((pages.map (fun page =>
      ((tablesForPage cam page).map (fun tbl =>
        process_table_for_esrs drTexts mapping tbl page)).flatten)).flatten)
    if allRows.isEmpty then none else some allRows

/-! ## Reference-list loader (load_dr_list) -/

structure CsvTable where
  headers : List Text
  rows : List (List (Option Text))
deriving DecidableEq

/-- Outcome of reading the reference list: file missing, a read/processing
exception, or a parsed table (cells are None for NaN/empty). -/
inductive LoadInput where
  | missing
  | readError
  | table (t : CsvTable)
deriving DecidableEq

def potentialDisclosureCols : List Text :=
  [chars ("Disclosure requirement and related datapoint"),
   chars ("Disclosure requirement"),
   chars ("CSRD Disclosure requirement")]

def potentialEsrsCodeCols : List Text :=
  [chars ("ESRS and paragraph number"),
   chars ("ESRS Code"),
   chars ("ESRS")]

def headerMatches (pats : List Text) (c : Text) : Bool :=
  pats.any (fun p => containsSub (lowerStr p) (lowerStr c))

/-- Python dict assignment: replace in place when the key exists, else append. -/
def dictInsert (l : List (Text × Text)) (k v : Text) : List (Text × Text) :=
  if k ∈ l.map Prod.fst then l.map (fun kv => if kv.1 = k then (k, v) else kv)
  else l ++ [(k, v)]

/-- load_dr_list: identify the disclosure and code columns by fuzzy name
match; build the disclosure-text list (non-NaN disclosure cells) and the
mapping (rows with both cells present whose code cell contains a code-pattern
match).  Missing file, read errors, and unidentifiable columns all yield the
empty structures. -/
def load_dr_list : LoadInput → List Text × List (Text × Text)
  | LoadInput.missing => ([], [])
  | LoadInput.readError => ([], [])
  | LoadInput.table t =>
    match t.headers.findIdx? (headerMatches potentialDisclosureCols),
          t.headers.findIdx? (headerMatches potentialEsrsCodeCols) with
    | some dIdx, some cIdx =>
      let texts := t.rows.filterMap (fun r => r.getD dIdx none)
      let mapping := t.rows.foldl (fun acc r =>
        match r.getD dIdx none, r.getD cIdx none with
        | some dcell, some ccell =>
          match esrsCodeSearch (stripWs ccell) with
          | some c => dictInsert acc (stripWs dcell) c
          | none => acc
        | _, _ => acc) []
      (texts, mapping)
    | _, _ => ([], [])

/-! ## Concrete inputs appearing in the specified scenarios -/

/-- The single-page table of the end-to-end scenario. -/
def c1Table : List (List Text) :=
  [[chars ("ESRS 2 GOV-1"), chars ("Section 3.1.1.3")],
   [chars ("Some other text"), chars ("")]]

/-- The reference-list file of the loader scenario: the two expected column
headers and one data row. -/
def c7Table : CsvTable :=
  { headers := [chars ("Disclosure requirement and related datapoint"),
                chars ("ESRS and paragraph number")]
    rows := [[some (chars ("Climate policy")), some (chars ("E1-1 §14"))]] }

/-- A strategy oracle where the lattice strategy throws. -/
def c8Cam : Nat → Flavor → CamelotResult := fun _ f =>
  match f with
  | Flavor.lattice => CamelotResult.error
  | Flavor.stream => CamelotResult.tables [[[chars ("ESRS GOV-1 page 4")]]]

/-- Two extensionally equal strategy oracles written differently. -/
def c9CamA : Nat → Flavor → CamelotResult := fun _ _ =>
  CamelotResult.tables [[[chars ("ESRS GOV-1 page 4")]]]

def c9CamB : Nat → Flavor → CamelotResult := fun _ f =>
  match f with
  | Flavor.lattice => CamelotResult.tables [[[chars ("ESRS GOV-1 page 4")]]]
  | Flavor.stream => CamelotResult.tables [[[chars ("ESRS GOV-1 page 4")]]]

/-! # Theorems -/

/-! ## Helper lemmas -/

theorem any_false_mem {α : Type} (p : α → Bool) :
    ∀ (l : List α), l.any p = false → ∀ x ∈ l, p x = false := by
  intro l
  induction l with
  | nil => intro _ x hx; cases hx
  | cons y t ih =>
    intro h x hx
    simp only [List.any_cons, Bool.or_eq_false_iff] at h
    rcases List.mem_cons.mp hx with rfl | hx
    · exact h.1
    · exact ih h.2 x hx

theorem othersStep_fold_part_false (sections paragraphs rawPages : List Text) :
    ∀ (nums acc : List Text),
      (∀ x ∈ acc, partOfOther sections paragraphs rawPages x = false) →
      ∀ x ∈ nums.foldl (othersStep sections paragraphs rawPages) acc,
        partOfOther sections paragraphs rawPages x = false := by
  intro nums
  induction nums with
  | nil => intro acc h x hx; exact h x hx
  | cons n t ih =>
    intro acc h x hx
    simp only [List.foldl_cons] at hx
    refine ih _ ?_ x hx
    intro y hy
    unfold othersStep at hy
    split at hy
    · exact h y hy
    · next hb =>
      split at hy
      · exact h y hy
      · rcases List.mem_append.mp hy with h1 | h1
        · exact h y h1
        · rcases List.mem_singleton.mp h1 with rfl
          exact Bool.eq_false_iff.mpr hb

/-! ## Claims -/

/-- C1 (counterexample): on the scenario table, the single extracted row does
not have empty otherRefs as the claim states — the standalone "2" of
"ESRS 2 GOV-1" is not part of any captured reference, so it lands in
otherRefs. -/
theorem claim_C1_counterexample :
    (process_table_for_esrs [] [] c1Table 1).map ExtractedRow.otherRefs ≠ [[]] := by
  decide

/-- C1 (amended): the single-page table with rows ["ESRS 2 GOV-1",
"Section 3.1.1.3"] and ["Some other text", ""] yields exactly one
ExtractedRow, whose code is "GOV-1" (not "2 GOV-1"), with
sectionRefs = ["Section 3.1.1.3"], pageRefs = [], paragraphRefs = [], and
otherRefs = ["2"] (the standalone "2" is not excluded by any captured
reference). -/
theorem claim_C1_theorem :
    process_table_for_esrs [] [] c1Table 1 =
      [{ code := chars ("GOV-1")
         matchedDisclosureText := []
         sectionRefs := [chars ("Section 3.1.1.3")]
         pageRefs := []
         paragraphRefs := []
         otherRefs := [chars ("2")]
         sourcePage := 1
         sourceRowText := chars ("ESRS 2 GOV-1 Section 3.1.1.3") }] := by
  decide

/-- C2: for every searchText, any number appearing in otherRefs is (as a
string) not contained in any captured section reference, paragraph reference,
or raw "page N" match — so a token that is part of one of those captures never
also appears in otherRefs; and on the concrete scenario
"see Section 3.1.1 and page 42" the classifier yields
sectionRefs = ["Section 3.1.1"], pageRefs = ["42"], otherRefs = []. -/
theorem claim_C2_theorem :
    (∀ (s n : Text), n ∈ (classifyRefs s).others →
      (∀ r ∈ (classifyRefs s).sections, containsSub n r = false) ∧
      (∀ r ∈ (classifyRefs s).paragraphs, containsSub n r = false) ∧
      (∀ r ∈ (classifyRefs s).rawPageMatches, containsSub n r = false)) ∧
    classifyRefs (chars ("see Section 3.1.1 and page 42")) =
      { sections := [chars ("Section 3.1.1")]
        pages := [chars ("42")]
        paragraphs := []
        others := []
        rawPageMatches := [chars ("page 42")] } := by
  constructor
  · intro s n hn
    have hpart : partOfOther (sectionRefsOf s) (paragraphRefsOf s) (pageFindAll s) n = false := by
      refine othersStep_fold_part_false _ _ _ (numberFindAll s) [] ?_ n hn
      intro x hx
      cases hx
    unfold partOfOther at hpart
    simp only [Bool.or_eq_false_iff] at hpart
    refine ⟨?_, ?_, ?_⟩
    · intro r hr
      exact any_false_mem _ _ hpart.1.1 r hr
    · intro r hr
      exact any_false_mem _ _ hpart.1.2 r hr
    · intro r hr
      exact any_false_mem _ _ hpart.2 r hr
  · decide

/-- C2 (witness): instantiating the exclusivity statement on the searchText
"7 Section 3.1", where otherRefs = ["7"] and sectionRefs = ["Section 3.1"]. -/
theorem claim_C2_witness :
    containsSub (chars ("7")) (chars ("Section 3.1")) = false :=
  ((claim_C2_theorem.1 (chars ("7 Section 3.1")) (chars ("7")) (by decide)).1
    (chars ("Section 3.1")) (by decide))

/-- C7: the claim is right about the degraded modes (missing file, read
error, unidentifiable columns all yield empty structures), but on the
scenario row ("Climate policy", "E1-1 §14") the code produces an EMPTY
mapping: ESRS_CODE_RE requires a 2-4 uppercase-letter prefix before the
hyphen, so it finds no match in "E1-1 §14" and the row is silently skipped,
contradicting the documented expectation disclosureToCode =
("Climate policy" to "E1-1").  The program's own dummy test PDF uses
single-letter codes such as E1-1 and S2-4, so the pattern is a slip. -/
theorem claim_C7_theorem :
    load_dr_list (LoadInput.table c7Table) = ([chars ("Climate policy")], []) ∧
    load_dr_list LoadInput.missing = ([], []) ∧
    load_dr_list LoadInput.readError = ([], []) ∧
    esrsCodeSearch (stripWs (chars ("E1-1 §14"))) = none := by
  decide

/-- C10: the section and paragraph patterns match case-insensitively while
de-duplication compares the matched substrings exactly, so a searchText
containing the same reference in two letter-casings keeps both variants as
distinct entries. -/
theorem claim_C10_theorem :
    (classifyRefs (chars ("Section 3.1 section 3.1 paragraph 14 Paragraph 14"))).paragraphs =
      [chars ("paragraph 14"), chars ("Paragraph 14")] ∧
    (classifyRefs (chars ("Section 3.1 section 3.1 paragraph 14 Paragraph 14"))).sections =
      [chars ("Section 3.1"), chars ("section 3.1")] ∧
    chars ("paragraph 14") ≠ chars ("Paragraph 14") := by
  decide

/-- C4: a row yields an ExtractedRow exactly when a code-pattern match is
present in the concatenated row text AND a disclosure-text match was found or
one of sectionRefs, pageRefs, paragraphRefs is non-empty; in particular no
code means no row, and otherRefs alone never keeps a row. -/
theorem claim_C4_theorem :
    ∀ (drTexts : List Text) (mapping : List (Text × Text)) (page : Nat) (row : List Text),
      (processRow drTexts mapping page row).isSome =
        ((esrsCodeSearch (rowTextOf row)).isSome &&
         ((rowMatchedText drTexts mapping (rowTextOf row)).isSome ||
          !(classifyRefs (rowSearchText drTexts mapping (rowTextOf row))).sections.isEmpty ||
          !(classifyRefs (rowSearchText drTexts mapping (rowTextOf row))).pages.isEmpty ||
          !(classifyRefs (rowSearchText drTexts mapping (rowTextOf row))).paragraphs.isEmpty)) := by
  intro drTexts mapping page row
  unfold processRow
  cases h : esrsCodeSearch (rowTextOf row) with
  | none => simp [h]
  | some code =>
    simp only [h]
    split
    · next hcond => simp [hcond]
    · next hcond => simp [Bool.eq_false_iff.mpr hcond]

/-- Page-scan abort: an extraction failure anywhere in the document makes
find_esrs_pages return the empty list (the try/except wraps the whole page
loop). -/
theorem find_aux_err (drTexts : List Text) :
    ∀ (l : List PageRead) (i : Nat) (acc : List Nat), PageRead.err ∈ l →
      find_esrs_pages_aux drTexts i acc l = [] := by
  intro l
  induction l with
  | nil => intro i acc h; cases h
  | cons p t ih =>
    intro i acc h
    cases p with
    | err => rfl
    | ok s =>
      have ht : PageRead.err ∈ t := by
        rcases List.mem_cons.mp h with h1 | h1
        · cases h1
        · exact h1
      simp only [find_esrs_pages_aux]
      exact ih _ _ ht

/-- C5 (counterexample): with an ESRS page before and after a failing page,
find_esrs_pages returns [] — the pages selected before and after the failure
are NOT returned, although page 1 alone would be selected. -/
theorem claim_C5_counterexample :
    find_esrs_pages []
      [PageRead.ok (chars ("page with ESRS")), PageRead.err, PageRead.ok (chars ("ESRS again"))] = [] ∧
    find_esrs_pages [] [PageRead.ok (chars ("page with ESRS"))] = [1] ∧
    1 ∉ find_esrs_pages []
      [PageRead.ok (chars ("page with ESRS")), PageRead.err, PageRead.ok (chars ("ESRS again"))] := by
  decide

/-- C5 (amended): a text-extraction failure on any page is caught at document
level: find_esrs_pages logs it and returns the empty page list for the whole
document, discarding pages selected before (and after) the failing page; only
extract_text returning no text is treated as an empty page with processing
continuing. -/
theorem claim_C5_theorem :
    ∀ (drTexts : List Text) (doc : List PageRead),
      PageRead.err ∈ doc → find_esrs_pages drTexts doc = [] := by
  intro drTexts doc h
  exact find_aux_err drTexts doc 1 [] h

/-- C5 (witness): the amended statement applied to a concrete document. -/
theorem claim_C5_witness :
    find_esrs_pages [] [PageRead.ok (chars ("ESRS one")), PageRead.err] = [] :=
  claim_C5_theorem [] [PageRead.ok (chars ("ESRS one")), PageRead.err] (by decide)

theorem if_isEmpty_eq {α : Type} (l : List α) : (if l.isEmpty then ([] : List α) else l) = l := by
  cases l <;> simp

/-- C8: on every page both strategies are attempted in the fixed order
lattice then stream and their table lists are concatenated; a strategy that
throws (or finds nothing) contributes zero tables while the other strategy's
tables are still all used. -/
theorem claim_C8_theorem :
    ∀ (cam : Nat → Flavor → CamelotResult) (page : Nat),
      tablesForPage cam page =
        extract_tables_on_page cam page Flavor.lattice ++
        extract_tables_on_page cam page Flavor.stream ∧
      (cam page Flavor.lattice = CamelotResult.error →
        tablesForPage cam page = extract_tables_on_page cam page Flavor.stream) ∧
      (cam page Flavor.stream = CamelotResult.error →
        tablesForPage cam page = extract_tables_on_page cam page Flavor.lattice) := by
  intro cam page
  have h1 : tablesForPage cam page =
      extract_tables_on_page cam page Flavor.lattice ++
      extract_tables_on_page cam page Flavor.stream := by
    simp only [tablesForPage, if_isEmpty_eq]
  refine ⟨h1, ?_, ?_⟩
  · intro he
    rw [h1]
    unfold extract_tables_on_page
    rw [he]
    simp
  · intro he
    rw [h1]
    unfold extract_tables_on_page
    rw [he]
    simp

/-- C8 (witness): with a lattice strategy that throws, the page's tables are
exactly the stream strategy's tables. -/
theorem claim_C8_witness :
    tablesForPage c8Cam 7 = extract_tables_on_page c8Cam 7 Flavor.stream :=
  (claim_C8_theorem c8Cam 7).2.1 rfl

/-- C9: the pipeline is deterministic in its inputs: two runs on the same
document, reference list, and strategy results (oracles agreeing on every
page and flavor) produce the identical ordered row collection. -/
theorem claim_C9_theorem :
    ∀ (drTexts : List Text) (mapping : List (Text × Text)) (doc : List PageRead)
      (cam1 cam2 : Nat → Flavor → CamelotResult),
      (∀ p f, cam1 p f = cam2 p f) →
      extract_esrs_tables drTexts mapping doc cam1 =
        extract_esrs_tables drTexts mapping doc cam2 := by
  intro dr m doc c1 c2 h
  have hc : c1 = c2 := funext fun p => funext fun f => h p f
  rw [hc]

/-- One iteration of the page loop on a readable page appends the current
index exactly when the page is selected (the two separate membership-guarded
appends of the source collapse to this because the index is fresh). -/
theorem find_aux_ok_step (drTexts : List Text) (t : Text) (rest : List PageRead)
    (i : Nat) (acc : List Nat) (hiacc : i ∉ acc) :
    find_esrs_pages_aux drTexts i acc (PageRead.ok t :: rest) =
      find_esrs_pages_aux drTexts (i + 1)
        (if pageSelected drTexts t then acc ++ [i] else acc) rest := by
  simp only [find_esrs_pages_aux]
  congr 1
  by_cases h1 : containsSub esrsKw (upperStr t) = true
  · by_cases h2 : ∃ dr ∈ drTexts, containsSub (lowerStr dr) (lowerStr t) = true
    · simp [h1, h2, hiacc, pageSelected, List.mem_append]
    · simp [h1, h2, hiacc, pageSelected]
  · by_cases h2 : ∃ dr ∈ drTexts, containsSub (lowerStr dr) (lowerStr t) = true
    · simp [h1, h2, hiacc, pageSelected]
    · simp [h1, h2, hiacc, pageSelected]

/-- Invariant-carrying specification of the page loop on documents whose
pages all read successfully. -/
theorem find_aux_ok_spec (drTexts : List Text) :
    ∀ (rest : List Text) (i : Nat) (acc : List Nat),
      1 ≤ i →
      acc.Pairwise (· < ·) →
      (∀ j ∈ acc, 1 ≤ j ∧ j < i) →
      (find_esrs_pages_aux drTexts i acc (rest.map PageRead.ok)).Pairwise (· < ·) ∧
      (∀ j ∈ find_esrs_pages_aux drTexts i acc (rest.map PageRead.ok),
        1 ≤ j ∧ j < i + rest.length) ∧
      (∀ j, j ∈ find_esrs_pages_aux drTexts i acc (rest.map PageRead.ok) ↔
        j ∈ acc ∨ ∃ k t, rest[k]? = some t ∧ j = i + k ∧ pageSelected drTexts t) := by
  intro rest
  induction rest with
  | nil =>
    intro i acc h1 hp hb
    simp only [List.map_nil, find_esrs_pages_aux, List.length_nil]
    refine ⟨hp, ?_, ?_⟩
    · intro j hj
      have := hb j hj
      omega
    · intro j
      constructor
      · exact Or.inl
      · rintro (h | ⟨k, t, hk, _, _⟩)
        · exact h
        · simp at hk
  | cons t0 rest ih =>
    intro i acc h1 hp hb
    have hiacc : i ∉ acc := fun hmem => absurd (hb i hmem).2 (lt_irrefl i)
    rw [List.map_cons, find_aux_ok_step drTexts t0 (rest.map PageRead.ok) i acc hiacc]
    have hp2 : (if pageSelected drTexts t0 then acc ++ [i] else acc).Pairwise (· < ·) := by
      by_cases hsel : pageSelected drTexts t0
      · rw [if_pos hsel]
        refine List.pairwise_append.mpr ⟨hp, List.pairwise_singleton _ _, ?_⟩
        intro a ha b hb2
        rcases List.mem_singleton.mp hb2 with rfl
        exact (hb a ha).2
      · simpa [hsel] using hp
    have hb2 : ∀ j ∈ (if pageSelected drTexts t0 then acc ++ [i] else acc), 1 ≤ j ∧ j < i + 1 := by
      intro j hj
      by_cases hsel : pageSelected drTexts t0
      · rw [if_pos hsel] at hj
        rcases List.mem_append.mp hj with hj | hj
        · have := hb j hj
          omega
        · rcases List.mem_singleton.mp hj with rfl
          omega
      · rw [if_neg hsel] at hj
        have := hb j hj
        omega
    obtain ⟨ihp, ihb, ihm⟩ := ih (i + 1) _ (by omega) hp2 hb2
    refine ⟨ihp, ?_, ?_⟩
    · intro j hj
      have := ihb j hj
      simp only [List.length_cons]
      omega
    · intro j
      rw [ihm j]
      constructor
      · rintro (hj | ⟨k, t, hk, hjk, hsel⟩)
        · by_cases hsel : pageSelected drTexts t0
          · rw [if_pos hsel] at hj
            rcases List.mem_append.mp hj with hj | hj
            · exact Or.inl hj
            · rcases List.mem_singleton.mp hj with rfl
              exact Or.inr ⟨0, t0, by simp, by omega, hsel⟩
          · rw [if_neg hsel] at hj
            exact Or.inl hj
        · exact Or.inr ⟨k + 1, t, by simpa using hk, by omega, hsel⟩
      · rintro (hj | ⟨k, t, hk, hjk, hsel⟩)
        · left
          by_cases hsel : pageSelected drTexts t0
          · rw [if_pos hsel]
            exact List.mem_append_left _ hj
          · rw [if_neg hsel]
            exact hj
        · cases k with
          | zero =>
            left
            simp only [List.getElem?_cons_zero, Option.some.injEq] at hk
            subst hk
            rw [if_pos hsel]
            have : j = i := by omega
            subst this
            exact List.mem_append_right _ (List.mem_singleton.mpr rfl)
          | succ k =>
            right
            refine ⟨k, t, by simpa using hk, by omega, hsel⟩

/-- C6: on a document whose pages all read successfully, the Page Selector
returns a strictly ascending (hence duplicate-free) list of indices within
[1, pageCount], and an index is present exactly when its page's text contains
"ESRS" case-insensitively or contains some loaded disclosure text as a
case-insensitive substring. -/
theorem claim_C6_theorem :
    ∀ (drTexts : List Text) (doc : List Text),
      (find_esrs_pages drTexts (doc.map PageRead.ok)).Pairwise (· < ·) ∧
      (∀ j ∈ find_esrs_pages drTexts (doc.map PageRead.ok), 1 ≤ j ∧ j ≤ doc.length) ∧
      (∀ j, j ∈ find_esrs_pages drTexts (doc.map PageRead.ok) ↔
        ∃ k t, doc[k]? = some t ∧ j = 1 + k ∧ pageSelected drTexts t) := by
  intro drTexts doc
  unfold find_esrs_pages
  obtain ⟨hp, hb, hm⟩ :=
    find_aux_ok_spec drTexts doc 1 [] (le_refl 1) List.Pairwise.nil (by simp)
  refine ⟨hp, ?_, ?_⟩
  · intro j hj
    have := hb j hj
    omega
  · intro j
    rw [hm j]
    simp

/-- C6 (witness): page 1 of a one-page document containing "ESRS" is
selected. -/
theorem claim_C6_witness :
    1 ∈ find_esrs_pages [] ([chars ("x ESRS")].map PageRead.ok) :=
  ((claim_C6_theorem [] [chars ("x ESRS")]).2.2 1).mpr
    ⟨0, chars ("x ESRS"), by decide, by decide, Or.inl (by decide)⟩

theorem containsSub_findSub (n : Text) :
    ∀ (h : Text), containsSub n h = true → ∃ i, findSub n h = some i := by
  intro h
  induction h with
  | nil =>
    intro hc
    unfold containsSub at hc
    exact ⟨0, by simp [findSub, hc]⟩
  | cons c t ih =>
    intro hc
    unfold containsSub at hc
    cases hp : isPrefixTo n (c :: t) with
    | true => exact ⟨0, by simp [findSub, hp]⟩
    | false =>
      rw [hp] at hc
      simp only [Bool.false_or] at hc
      obtain ⟨i, hi⟩ := ih hc
      exact ⟨i + 1, by simp [findSub, hp, hi]⟩

theorem mem_insertDesc (x y : Text) :
    ∀ (l : List Text), y ∈ insertDesc x l ↔ y = x ∨ y ∈ l := by
  intro l
  induction l with
  | nil => simp [insertDesc]
  | cons z t ih =>
    unfold insertDesc
    split
    · simp only [List.mem_cons, ih]
      tauto
    · simp [List.mem_cons]

theorem sorted_insertDesc (x : Text) :
    ∀ (l : List Text), l.Pairwise (fun a b => b.length ≤ a.length) →
      (insertDesc x l).Pairwise (fun a b => b.length ≤ a.length) := by
  intro l
  induction l with
  | nil =>
    intro _
    simp [insertDesc]
  | cons y t ih =>
    intro hp
    rcases List.pairwise_cons.mp hp with ⟨hy, ht⟩
    unfold insertDesc
    split
    · next hlt =>
      refine List.pairwise_cons.mpr ⟨?_, ih ht⟩
      intro b hb
      rcases (mem_insertDesc x b t).mp hb with rfl | hb
      · omega
      · exact hy b hb
    · next hge =>
      refine List.pairwise_cons.mpr ⟨?_, hp⟩
      intro b hb
      rcases List.mem_cons.mp hb with rfl | hb
      · omega
      · exact Nat.le_trans (hy b hb) (by omega)

theorem mem_sortKeys (y : Text) :
    ∀ (l : List Text), y ∈ sortKeysByLenDesc l ↔ y ∈ l := by
  intro l
  induction l with
  | nil => simp [sortKeysByLenDesc]
  | cons x t ih =>
    unfold sortKeysByLenDesc
    rw [mem_insertDesc x y (sortKeysByLenDesc t), ih]
    simp

theorem sorted_sortKeys :
    ∀ (l : List Text), (sortKeysByLenDesc l).Pairwise (fun a b => b.length ≤ a.length) := by
  intro l
  induction l with
  | nil => simp [sortKeysByLenDesc]
  | cons x t ih => exact sorted_insertDesc x _ ih

/-- Specification of the best-match scanning loop: on a length-descending
candidate list, the accumulated best is a candidate with minimal first
occurrence offset, and of maximal length among candidates at that offset —
the "or longer" disjunct of the update condition can never fire because every
later key is at most as long as the current best. -/
theorem bestFold_spec (mapping : List (Text × Text)) (code rowText : Text) :
    ∀ (l : List Text),
      l.Pairwise (fun a b => b.length ≤ a.length) →
      ∀ (acc : Option (Text × Nat)),
      (∀ bt bi, acc = some (bt, bi) →
        candCond mapping code rowText bt ∧
        findSub (lowerStr bt) (lowerStr rowText) = some bi ∧
        ∀ dr ∈ l, dr.length ≤ bt.length) →
      ((∀ bt bi, l.foldl (bestStep mapping code rowText) acc = some (bt, bi) →
        (candCond mapping code rowText bt ∧
         findSub (lowerStr bt) (lowerStr rowText) = some bi) ∧
        (acc = some (bt, bi) ∨ bt ∈ l) ∧
        (∀ dr ∈ l, candCond mapping code rowText dr →
          ∀ i, findSub (lowerStr dr) (lowerStr rowText) = some i →
            bi ≤ i ∧ (i = bi → dr.length ≤ bt.length)) ∧
        (∀ abt abi, acc = some (abt, abi) →
          bi ≤ abi ∧ (abi = bi → abt.length ≤ bt.length))) ∧
       (l.foldl (bestStep mapping code rowText) acc = none →
        acc = none ∧ ∀ dr ∈ l, ¬ candCond mapping code rowText dr)) := by
  intro l
  induction l with
  | nil =>
    intro _ acc hacc
    constructor
    · intro bt bi hres
      simp only [List.foldl_nil] at hres
      obtain ⟨hc, ho, _⟩ := hacc bt bi hres
      refine ⟨⟨hc, ho⟩, Or.inl hres, ?_, ?_⟩
      · intro dr hdr
        cases hdr
      · intro abt abi habt
        rw [hres] at habt
        simp only [Option.some.injEq, Prod.mk.injEq] at habt
        obtain ⟨h1, h2⟩ := habt
        exact ⟨by omega, fun _ => by simp [h1]⟩
    · intro hres
      simp only [List.foldl_nil] at hres
      exact ⟨hres, fun dr hdr => absurd hdr (List.not_mem_nil dr)⟩
  | cons x t ih =>
    intro hp acc hacc
    rcases List.pairwise_cons.mp hp with ⟨hx, ht⟩
    simp only [List.foldl_cons]
    by_cases hc : candCond mapping code rowText x
    · obtain ⟨idx, hoffx⟩ := containsSub_findSub _ _ hc.2
      cases hacc0 : acc with
      | none =>
        have hstep : bestStep mapping code rowText none x = some (x, idx) := by
          simp [bestStep, hc, hoffx]
        rw [hstep]
        have hacc2 : ∀ bt bi, (some (x, idx) : Option (Text × Nat)) = some (bt, bi) →
            candCond mapping code rowText bt ∧
            findSub (lowerStr bt) (lowerStr rowText) = some bi ∧
            ∀ dr ∈ t, dr.length ≤ bt.length := by
          intro bt bi h
          simp only [Option.some.injEq, Prod.mk.injEq] at h
          obtain ⟨h1, h2⟩ := h
          subst h1
          subst h2
          exact ⟨hc, hoffx, fun dr hdr => hx dr hdr⟩
        obtain ⟨ih1, ih2⟩ := ih ht (some (x, idx)) hacc2
        constructor
        · intro bt bi hres
          obtain ⟨hco, horig, hminL, hminAcc⟩ := ih1 bt bi hres
          have hAcc1 := hminAcc x idx rfl
          refine ⟨hco, ?_, ?_, ?_⟩
          · rcases horig with h | h
            · simp only [Option.some.injEq, Prod.mk.injEq] at h
              exact Or.inr (List.mem_cons.mpr (Or.inl h.1.symm))
            · exact Or.inr (List.mem_cons_of_mem x h)
          · intro dr hdr hcd i hoff
            rcases List.mem_cons.mp hdr with rfl | hdr
            · rw [hoffx] at hoff
              injection hoff with he
              subst he
              exact hAcc1
            · exact hminL dr hdr hcd i hoff
          · intro abt abi habt
            cases habt
        · intro hres
          obtain ⟨h1, _⟩ := ih2 hres
          cases h1
      | some pair =>
        obtain ⟨bt0, bi0⟩ := pair
        obtain ⟨hc0, ho0, hl0⟩ := hacc bt0 bi0 hacc0
        have hxlen : x.length ≤ bt0.length := hl0 x (List.mem_cons_self x t)
        have hnlt2 : ¬ bt0.length < x.length := Nat.not_lt.mpr hxlen
        by_cases hlt : idx < bi0
        · have hstep : bestStep mapping code rowText (some (bt0, bi0)) x = some (x, idx) := by
            simp [bestStep, hc, hoffx, hlt]
          rw [hstep]
          have hacc2 : ∀ bt bi, (some (x, idx) : Option (Text × Nat)) = some (bt, bi) →
              candCond mapping code rowText bt ∧
              findSub (lowerStr bt) (lowerStr rowText) = some bi ∧
              ∀ dr ∈ t, dr.length ≤ bt.length := by
            intro bt bi h
            simp only [Option.some.injEq, Prod.mk.injEq] at h
            obtain ⟨h1, h2⟩ := h
            subst h1
            subst h2
            exact ⟨hc, hoffx, fun dr hdr => hx dr hdr⟩
          obtain ⟨ih1, ih2⟩ := ih ht (some (x, idx)) hacc2
          constructor
          · intro bt bi hres
            obtain ⟨hco, horig, hminL, hminAcc⟩ := ih1 bt bi hres
            have hAcc1 := hminAcc x idx rfl
            refine ⟨hco, ?_, ?_, ?_⟩
            · rcases horig with h | h
              · simp only [Option.some.injEq, Prod.mk.injEq] at h
                exact Or.inr (List.mem_cons.mpr (Or.inl h.1.symm))
              · exact Or.inr (List.mem_cons_of_mem x h)
            · intro dr hdr hcd i hoff
              rcases List.mem_cons.mp hdr with rfl | hdr
              · rw [hoffx] at hoff
                injection hoff with he
                subst he
                exact hAcc1
              · exact hminL dr hdr hcd i hoff
            · intro abt abi habt
              simp only [Option.some.injEq, Prod.mk.injEq] at habt
              obtain ⟨h1, h2⟩ := habt
              have hb1 : bi ≤ idx := hAcc1.1
              constructor
              · omega
              · intro he
                exfalso
                omega
          · intro hres
            obtain ⟨h1, _⟩ := ih2 hres
            cases h1
        · have hstep : bestStep mapping code rowText (some (bt0, bi0)) x = some (bt0, bi0) := by
            simp [bestStep, hc, hoffx, hlt, hnlt2]
          rw [hstep]
          have hacc2 : ∀ bt bi, (some (bt0, bi0) : Option (Text × Nat)) = some (bt, bi) →
              candCond mapping code rowText bt ∧
              findSub (lowerStr bt) (lowerStr rowText) = some bi ∧
              ∀ dr ∈ t, dr.length ≤ bt.length := by
            intro bt bi h
            simp only [Option.some.injEq, Prod.mk.injEq] at h
            obtain ⟨h1, h2⟩ := h
            subst h1
            subst h2
            exact ⟨hc0, ho0, fun dr hdr => hl0 dr (List.mem_cons_of_mem x hdr)⟩
          obtain ⟨ih1, ih2⟩ := ih ht (some (bt0, bi0)) hacc2
          constructor
          · intro bt bi hres
            obtain ⟨hco, horig, hminL, hminAcc⟩ := ih1 bt bi hres
            have hAcc0 := hminAcc bt0 bi0 rfl
            refine ⟨hco, ?_, ?_, ?_⟩
            · rcases horig with h | h
              · exact Or.inl h
              · exact Or.inr (List.mem_cons_of_mem x h)
            · intro dr hdr hcd i hoff
              rcases List.mem_cons.mp hdr with rfl | hdr
              · rw [hoffx] at hoff
                injection hoff with he
                subst he
                have hb0 : bi0 ≤ idx := Nat.not_lt.mp hlt
                constructor
                · omega
                · intro he2
                  have he3 : bi0 = bi := by omega
                  exact Nat.le_trans hxlen (hAcc0.2 he3)
              · exact hminL dr hdr hcd i hoff
            · intro abt abi habt
              simp only [Option.some.injEq, Prod.mk.injEq] at habt
              obtain ⟨h1, h2⟩ := habt
              subst h1
              subst h2
              exact hAcc0
          · intro hres
            obtain ⟨h1, _⟩ := ih2 hres
            cases h1
    · have hstep : bestStep mapping code rowText acc x = acc := by
        simp [bestStep, hc]
      rw [hstep]
      have hacc2 : ∀ bt bi, acc = some (bt, bi) →
          candCond mapping code rowText bt ∧
          findSub (lowerStr bt) (lowerStr rowText) = some bi ∧
          ∀ dr ∈ t, dr.length ≤ bt.length := by
        intro bt bi h
        obtain ⟨h1, h2, h3⟩ := hacc bt bi h
        exact ⟨h1, h2, fun dr hdr => h3 dr (List.mem_cons_of_mem x hdr)⟩
      obtain ⟨ih1, ih2⟩ := ih ht acc hacc2
      constructor
      · intro bt bi hres
        obtain ⟨hco, horig, hminL, hminAcc⟩ := ih1 bt bi hres
        refine ⟨hco, ?_, ?_, hminAcc⟩
        · rcases horig with h | h
          · exact Or.inl h
          · exact Or.inr (List.mem_cons_of_mem x h)
        · intro dr hdr hcd i hoff
          rcases List.mem_cons.mp hdr with rfl | hdr
          · exact absurd hcd hc
          · exact hminL dr hdr hcd i hoff
      · intro hres
        obtain ⟨h1, h2⟩ := ih2 hres
        refine ⟨h1, ?_⟩
        intro dr hdr
        rcases List.mem_cons.mp hdr with rfl | hdr
        · exact hc
        · exact h2 dr hdr

/-- C3: when the disclosure list is loaded and the row contains a code, the
selected disclosure text is, among all mapping keys that map to that code and
occur case-insensitively in the row text, one whose first occurrence offset
is minimal, and among candidates with that same earliest offset its length is
maximal; moreover a best match is returned whenever at least one candidate
exists. -/
theorem claim_C3_theorem :
    ∀ (mapping : List (Text × Text)) (code rowText : Text),
      (∀ bt bi, findBestMatch mapping code rowText = some (bt, bi) →
        (bt ∈ mapping.map Prod.fst ∧ candCond mapping code rowText bt ∧
         findSub (lowerStr bt) (lowerStr rowText) = some bi) ∧
        (∀ dr ∈ mapping.map Prod.fst, candCond mapping code rowText dr →
          ∀ i, findSub (lowerStr dr) (lowerStr rowText) = some i →
            bi ≤ i ∧ (i = bi → dr.length ≤ bt.length))) ∧
      ((∃ dr ∈ mapping.map Prod.fst, candCond mapping code rowText dr) →
        (findBestMatch mapping code rowText).isSome = true) := by
  intro mapping code rowText
  obtain ⟨h1, h2⟩ :=
    bestFold_spec mapping code rowText (sortKeysByLenDesc (mapping.map Prod.fst))
      (sorted_sortKeys _) none (by intro bt bi h; cases h)
  constructor
  · intro bt bi hres
    obtain ⟨hco, horig, hminL, _⟩ := h1 bt bi hres
    refine ⟨⟨?_, hco.1, hco.2⟩, ?_⟩
    · rcases horig with h | h
      · cases h
      · exact (mem_sortKeys bt _).mp h
    · intro dr hdr hcd i hoff
      exact hminL dr ((mem_sortKeys dr _).mpr hdr) hcd i hoff
  · rintro ⟨dr, hdr, hcd⟩
    cases hres : findBestMatch mapping code rowText with
    | some pair => rfl
    | none =>
      obtain ⟨_, hno⟩ := h2 hres
      exact absurd hcd (hno dr ((mem_sortKeys dr _).mpr hdr))

/-- C3 (witness): on the mapping ab to GOV-1, b to GOV-1 and row text
"zab GOV-1", the selected match is "ab" at offset 1, and the minimality
statement instantiated at the candidate "b" (offset 2) gives 1 le 2. -/
theorem claim_C3_witness :
    (1 : Nat) ≤ 2 ∧ (2 = 1 → (chars ("b")).length ≤ (chars ("ab")).length) :=
  ((claim_C3_theorem [(chars ("ab"), chars ("GOV-1")), (chars ("b"), chars ("GOV-1"))]
      (chars ("GOV-1")) (chars ("zab GOV-1"))).1 (chars ("ab")) 1 (by decide)).2
    (chars ("b")) (by decide) (by decide) 2 (by decide)

/-- C9 (witness): two syntactically different but extensionally equal
oracles give identical pipeline output on a concrete document. -/
theorem claim_C9_witness :
    extract_esrs_tables [] [] [PageRead.ok (chars ("ESRS"))] c9CamA =
      extract_esrs_tables [] [] [PageRead.ok (chars ("ESRS"))] c9CamB :=
  claim_C9_theorem [] [] [PageRead.ok (chars ("ESRS"))] c9CamA c9CamB
    (fun p f => by cases f <;> rfl)

end Esrs
